import Mathlib

/-!
# pinboardin: a command line client for pinboard.in

Shallow embedding of `pinboardin.go`.

* A Go `string` / `[]uint8` is a Lean `String` (the inputs are taken to be valid UTF-8).
* The process is modelled by `Proc`: the text written to standard output so far together
  with how the computation ended (a value, `os.Exit`, or a panic).
* The network (`client.Get`, `ioutil.ReadAll`) and `json.Unmarshal` are the environment `Env`.
* The functions of the Go standard library the program calls (`fmt.Sprintf`, `fmt.Print`,
  `fmt.Println`, `log.Panic`, `url.Values.Set`, `url.Values.Encode`, `url.QueryEscape`,
  `time.Time.Format`) are embedded as far as the program uses them.
-/

set_option autoImplicit false

namespace Pinboardin

/-! ## Package fmt -/

/-- An operand of `fmt.Print`, `fmt.Println`, `log.Panic`: the program passes strings,
ints (`resp.StatusCode`, `http.StatusOK`) and errors. -/
inductive Arg where
  | str (s : String)
  | int (n : Int)
  | err (msg : String)
deriving DecidableEq, Repr

/-- The `isString` test of `fmt`'s `doPrint`: the operand's kind is `reflect.String`. -/
def Arg.isString : Arg → Bool
  | .str _ => true
  | _ => false

/-- The `%v` rendering of an operand: a string as is, an int in base 10, an error by its
`Error()` text. -/
def Arg.printArg : Arg → String
  | .str s => s
  | .int n => toString n
  | .err msg => msg

/-- The loop of `fmt`'s `doPrint`: a space is added between two operands when neither is
a string. `prevString` is the loop's variable, `first` says that `argNum = 0`. -/
def doPrint : List Arg → Bool → Bool → String
  | [], _, _ => ""
  | a :: rest, first, prevString =>
    (if !first && !a.isString && !prevString then " " else "")
      ++ a.printArg ++ doPrint rest false a.isString

/-- The function `fmt.Sprint`. -/
def Sprint (a : List Arg) : String := doPrint a true false

/-- The loop of `fmt`'s `doPrintln`: a space between all operands, a newline at the end. -/
def doPrintln : List Arg → Bool → String
  | [], _ => "\n"
  | a :: rest, first => (if first then "" else " ") ++ a.printArg ++ doPrintln rest false

/-- The function `fmt.Sprintln`. -/
def Sprintln (a : List Arg) : String := doPrintln a true

/-- The function `fmt.Sprintf` for a format whose only verb is `%s`, applied to string
operands. A verb without an operand prints `%!s(MISSING)`; operands left over are
reported by `%!(EXTRA ...)`. -/
def sprintfAux : List Char → List String → List Char
  | [], [] => []
  | [], a :: as =>
    "%!(EXTRA ".data ++ (", ".intercalate ((a :: as).map fun x => "string=" ++ x)).data ++ [')']
  | '%' :: 's' :: rest, [] => "%!s(MISSING)".data ++ sprintfAux rest []
  | '%' :: 's' :: rest, a :: as => a.data ++ sprintfAux rest as
  | c :: rest, as => c :: sprintfAux rest as

/-- The function `fmt.Sprintf` (format with `%s` verbs only). -/
def Sprintf (format : String) (a : List String) : String := ⟨sprintfAux format.data a⟩

/-! ## The process -/

/-- The value a panic carries. -/
inductive PanicValue where
  /-- `panic("...")` and `log.Panic(...)`: the value is the message string. -/
  | str (msg : String)
  /-- `panic(err)`: the value is the error. -/
  | error (msg : String)
  /-- `panic(nil)`. -/
  | nil
  /-- The run-time panic of `xs[i]` with `i` out of range. -/
  | indexOutOfRange (i len : Nat)
deriving DecidableEq, Repr

/-- How a computation ends. -/
inductive Outcome (α : Type) where
  | ok (a : α)
  | exit (code : Nat)
  | panic (v : PanicValue)
deriving DecidableEq, Repr

/-- A computation of the process: what it wrote to standard output and how it ended. -/
structure Proc (α : Type) where
  out : String
  res : Outcome α
deriving DecidableEq, Repr

/-- Sequencing: the second computation runs only when the first one returned. -/
def Proc.bind {α β : Type} (m : Proc α) (f : α → Proc β) : Proc β :=
  match m.res with
  | .ok a => ⟨m.out ++ (f a).out, (f a).res⟩
  | .exit c => ⟨m.out, .exit c⟩
  | .panic v => ⟨m.out, .panic v⟩

instance : Monad Proc where
  pure a := ⟨"", .ok a⟩
  bind := Proc.bind

/-- The builtin `panic(v)`. -/
def panic {α : Type} (v : PanicValue) : Proc α := ⟨"", .panic v⟩

/-- The function `os.Exit`. -/
def Exit {α : Type} (code : Nat) : Proc α := ⟨"", .exit code⟩

/-- The function `fmt.Print` (to standard output). -/
def Print (a : List Arg) : Proc Unit := ⟨Sprint a, .ok ()⟩

/-- The function `fmt.Println` (to standard output). -/
def Println (a : List Arg) : Proc Unit := ⟨Sprintln a, .ok ()⟩

/-- The function `log.Panic`: `s := fmt.Sprint(v...)`, the message is logged (to the error
stream, which is not part of the model) and `panic(s)` follows. -/
def logPanic {α : Type} (v : List Arg) : Proc α := panic (.str (Sprint v))

/-- The index expression `xs[i]` of a slice, with its run-time range check. -/
def index {α : Type} (xs : List α) (i : Nat) : Proc α :=
  match xs.get? i with
  | some x => pure x
  | none => panic (.indexOutOfRange i xs.length)

/-- A `for _, x := range xs { body }` loop. -/
def forRange {α : Type} : List α → (α → Proc Unit) → Proc Unit
  | [], _ => pure ()
  | x :: xs, body => do body x; forRange xs body

/-! ## Package net/url -/

/-- The string `upperhex` of `net/url`. -/
def upperhex : String := "0123456789ABCDEF"

/-- The bytes of a string (its UTF-8 encoding), each as a number below 256. -/
def bytes (s : String) : List Nat :=
  s.data.flatMap fun c => (String.utf8EncodeChar c).map UInt8.toNat

/-- The function `shouldEscape(c, encodeQueryComponent)` of `net/url`: the unreserved
characters (letters, digits, `-`, `_`, `.`, `~`) are kept, every other byte is escaped. -/
def shouldEscape (c : Nat) : Bool :=
  if ('a'.toNat ≤ c ∧ c ≤ 'z'.toNat) ∨ ('A'.toNat ≤ c ∧ c ≤ 'Z'.toNat)
      ∨ ('0'.toNat ≤ c ∧ c ≤ '9'.toNat) then false
  else if c = '-'.toNat ∨ c = '_'.toNat ∨ c = '.'.toNat ∨ c = '~'.toNat then false
  else true

/-- One step of the second loop of `escape(s, encodeQueryComponent)`: what is written for
the byte `c`. -/
def escapeByte (c : Nat) : List Char :=
  if c = ' '.toNat then ['+']
  else if shouldEscape c then ['%', upperhex.data.getD (c / 16) '0', upperhex.data.getD (c % 16) '0']
  else [Char.ofNat c]

/-- The function `url.QueryEscape`. -/
def QueryEscape (s : String) : String := ⟨(bytes s).flatMap escapeByte⟩

/-- The type `url.Values`, a `map[string][]string`, as an association list with one entry
per key. -/
abbrev Values := List (String × List String)

/-- The method `Values.Set`: `v[key] = []string{value}`. -/
def Values.Set (v : Values) (key value : String) : Values :=
  (key, [value]) :: v.filter (fun kv => kv.1 ≠ key)

/-- The map lookup `v[k]` (no entry gives the nil slice). -/
def Values.lookup (v : Values) (k : String) : List String :=
  match v.find? (fun kv => kv.1 = k) with
  | some kv => kv.2
  | none => []

/-- The inner loop of `Values.Encode` for one key: each value is written as
`keyEscaped=QueryEscape(value)`, after a `&` when the buffer is not empty. -/
def encodeKey (keyEscaped : String) : List String → String → String
  | [], buf => buf
  | v :: vs, buf =>
    encodeKey keyEscaped vs
      ((if buf.length > 0 then buf ++ "&" else buf) ++ keyEscaped ++ "=" ++ QueryEscape v)

/-- The outer loop of `Values.Encode` over the sorted keys. -/
def encodeKeys (v : Values) : List String → String → String
  | [], buf => buf
  | k :: ks, buf => encodeKeys v ks (encodeKey (QueryEscape k) (v.lookup k) buf)

/-- The comparison `a < b` of two Go strings: lexicographic on the bytes. -/
def lessBytes : List Nat → List Nat → Bool
  | _, [] => false
  | [], _ :: _ => true
  | a :: as, b :: bs => decide (a < b) || (decide (a = b) && lessBytes as bs)

/-- The function `sort.Strings`. -/
def sortStrings (keys : List String) : List String :=
  keys.insertionSort (fun a b => lessBytes (bytes b) (bytes a) = false)

/-- The method `Values.Encode`: the keys are sorted (`sort.Strings`) and written in that
order. -/
def Values.Encode (v : Values) : String :=
  encodeKeys v (sortStrings (v.map Prod.fst)) ""

/-! ## Package time -/

/-- A `time.Time`, by the fields of its civil time in its location that the stamp layout
shows; `Month` counts from 0 (January). -/
structure Time where
  Month : Fin 12
  Day : Nat
  Hour : Nat
  Minute : Nat
  Second : Nat
deriving DecidableEq, Repr

/-- The table `shortMonthNames` of package time. -/
def shortMonthNames : List String :=
  ["Jan", "Feb", "Mar", "Apr", "May", "Jun", "Jul", "Aug", "Sep", "Oct", "Nov", "Dec"]

/-- The function `appendInt` of package time: `x` in base 10, padded with zeros to
`width`. -/
def appendInt (x width : Nat) : String :=
  ⟨List.replicate (width - (toString x).length) '0'⟩ ++ toString x

/-- The method `Time.Format` at the layout `time.Stamp`, which is `"Jan _2 15:04:05"`:
short month name, day padded with a space, hour, minute and second on two digits. -/
def Time.FormatStamp (t : Time) : String :=
  shortMonthNames.getD t.Month.val "" ++ " "
    ++ ((if t.Day < 10 then " " else "") ++ appendInt t.Day 0) ++ " "
    ++ appendInt t.Hour 2 ++ ":" ++ appendInt t.Minute 2 ++ ":" ++ appendInt t.Second 2

/-! ## The program -/

/-- The variable `base_url`. -/
def base_url : String := "https://api.pinboard.in/v1"

/-- The constant `http.StatusTooManyRequests`. -/
def StatusTooManyRequests : Nat := 429

/-- The constant `http.StatusOK`. -/
def StatusOK : Nat := 200

/-- The values of the flags after `kingpin` has parsed the command line. A flag of type
`URL()` is held by the text its `String()` method returns. -/
structure Flags where
  username : String
  token : String
  json_resp : Bool
  show_date : Bool
  recentCount : String
  recentTags : String
  allStart : String
  allResults : String
  allTags : String
  allFrom : String
  allTill : String
  addUrl : String
  addTitle : String
  addDescription : String
  addTags : String
  addNoReplace : Bool
  addPrivate : Bool
  addUnread : Bool
  deleteUrl : String
  getUrl : String
  getTags : String
  getDate : String
  suggestUrl : String
deriving DecidableEq, Repr

/-- An element of `SuggestContent`. -/
structure SuggestItem where
  Popular : List String
  Recommended : List String
deriving DecidableEq, Repr

/-- The type `SuggestContent`. -/
abbrev SuggestContent := List SuggestItem

/-- A bookmark record, the element type of `PostsContent.Posts` and of `AllContent`. -/
structure Post where
  Href : String
  Description : String
  Extended : String
  Meta : String
  Hash : String
  Time : Time
  Shared : String
  Toread : String
  Tags : String
deriving DecidableEq, Repr

/-- The type `PostsContent`. -/
structure PostsContent where
  Date : Time
  User : String
  Posts : List Post
deriving DecidableEq, Repr

/-- The type `AllContent`. -/
abbrev AllContent := List Post

/-- The type `ShortResponse`. -/
structure ShortResponse where
  ResultCode : String
deriving DecidableEq, Repr

/-- The type `UrlArgs`. -/
structure UrlArgs where
  ResourceUri : String
  Params : String
  Username : String := ""
  Token : String := ""
deriving DecidableEq, Repr

/-- What `client.Get` hands back when the request completed: the status code and the
result of `ioutil.ReadAll(resp.Body)`, the body or the read error. -/
structure Response where
  StatusCode : Nat
  Body : Except String String

/-- The environment of a run: the answer of the server to `client.Get(url)` (or the
transport error) and `json.Unmarshal` at the four record types, each giving the decoded
record or the decode error. -/
structure Env where
  Get : String → Except String Response
  unmarshalSuggest : String → Except String SuggestContent
  unmarshalPosts : String → Except String PostsContent
  unmarshalAll : String → Except String AllContent
  unmarshalShort : String → Except String ShortResponse

/-- The method `UrlArgs.BuildUrl`; `username` and `token` are the global flags. -/
def UrlArgs.BuildUrl (f : Flags) (u : UrlArgs) : String :=
  Sprintf "%s/%s?auth_token=%s:%s&format=json&%s"
    [base_url, u.ResourceUri, f.username, f.token, u.Params]

/-- The function `HttpGet`. -/
def HttpGet (f : Flags) (env : Env) (url : String) : Proc String :=
  match env.Get url with
  | .error _ => panic (.str "Can't access pinboard API server")
  | .ok resp => do
    if resp.StatusCode = StatusTooManyRequests then
      panic (.str "Too many request to Pinboards API. Come back later")
    if resp.StatusCode ≠ StatusOK then
      logPanic [.str "Unexpected status code: %s. Expecting: %s",
        .int resp.StatusCode, .int StatusOK]
    match resp.Body with
    | .error err => logPanic [.err err]
    | .ok body => do
      if f.json_resp then
        Println [.str body]
        Exit 0
      return body

/-- The query parameters `p` of `SuggestUrl`. -/
def SuggestParams (f : Flags) : Values :=
  Values.Set [] "url" f.suggestUrl

/-- The `UrlArgs` value `u` of `SuggestUrl`. -/
def SuggestArgs (f : Flags) : UrlArgs :=
  { ResourceUri := "posts/suggest", Params := (SuggestParams f).Encode }

/-- The function `SuggestUrl`. -/
def SuggestUrl (f : Flags) (env : Env) : Proc Unit := do
  let suggest_url := (SuggestArgs f).BuildUrl f
  let body ← HttpGet f env suggest_url
  match env.unmarshalSuggest body with
  | .error err => panic (.error err)
  | .ok content => do
    Println [.str "Popular:"]
    let c0 ← index content 0
    forRange c0.Popular fun tag => Print [.str tag, .str ", "]
    Print [.str "\n"]
    Println [.str "Recommended:"]
    let c1 ← index content 1
    forRange c1.Recommended fun tag => Print [.str tag, .str ", "]
    Print [.str "\n"]

/-- The loop that `GetUrl`, `RecentUrls` and `AllUrls` each run over the decoded posts. -/
def printPosts (f : Flags) (posts : List Post) : Proc Unit :=
  forRange posts fun post => do
    if f.show_date then
      Print [.str post.Time.FormatStamp, .str ", "]
    Print [.str post.Href, .str "\n"]

/-- The query parameters `p` of `GetUrl`. -/
def GetParams (f : Flags) : Values :=
  let p : Values := []
  let p := if f.getTags ≠ "" then p.Set "tag" f.getTags else p
  let p := if f.getDate ≠ "" then p.Set "dt" f.getDate else p
  let p := if f.getUrl ≠ "" then p.Set "url" f.getUrl else p
  p

/-- The `UrlArgs` value `u` of `GetUrl`. -/
def GetArgs (f : Flags) : UrlArgs :=
  { ResourceUri := "posts/get", Params := (GetParams f).Encode }

/-- The function `GetUrl`. -/
def GetUrl (f : Flags) (env : Env) : Proc Unit := do
  let get_url := (GetArgs f).BuildUrl f
  let body ← HttpGet f env get_url
  match env.unmarshalPosts body with
  | .error err => panic (.error err)
  | .ok content => printPosts f content.Posts

/-- The query parameters `p` of `DeleteUrl`. -/
def DeleteParams (f : Flags) : Values :=
  Values.Set [] "url" f.deleteUrl

/-- The `UrlArgs` value `u` of `DeleteUrl`. -/
def DeleteArgs (f : Flags) : UrlArgs :=
  { ResourceUri := "posts/delete", Params := (DeleteParams f).Encode }

/-- The function `DeleteUrl`. -/
def DeleteUrl (f : Flags) (env : Env) : Proc Unit := do
  let delete_url := (DeleteArgs f).BuildUrl f
  let body ← HttpGet f env delete_url
  match env.unmarshalShort body with
  | .error _ => panic .nil
  | .ok content => Print [.str content.ResultCode, .str "\n"]

/-- The query parameters `p` of `AddUrl`. -/
def AddParams (f : Flags) : Values :=
  let p : Values := []
  let p := p.Set "url" f.addUrl
  let p := p.Set "description" f.addTitle
  let p := if f.addDescription ≠ "" then p.Set "extended" f.addDescription else p
  let p := if f.addTags ≠ "" then p.Set "tags" f.addTags else p
  let p := if f.addNoReplace then p.Set "replace" "no" else p
  let p := if f.addPrivate then p.Set "shared" "no" else p
  let p := if f.addUnread then p.Set "toread" "yes" else p
  p

/-- The `UrlArgs` value `u` of `AddUrl`. -/
def AddArgs (f : Flags) : UrlArgs :=
  { ResourceUri := "posts/add", Params := (AddParams f).Encode }

/-- The function `AddUrl`. -/
def AddUrl (f : Flags) (env : Env) : Proc Unit := do
  let add_url := (AddArgs f).BuildUrl f
  let body ← HttpGet f env add_url
  match env.unmarshalShort body with
  | .error _ => panic .nil
  | .ok content => Print [.str content.ResultCode, .str "\n"]

/-- The query parameters `p` of `RecentUrls`. -/
def RecentParams (f : Flags) : Values :=
  let p : Values := []
  let p := if f.recentTags ≠ "" then p.Set "tag" f.recentTags else p
  let p := if f.recentCount ≠ "" then p.Set "count" f.recentCount else p
  p

/-- The `UrlArgs` value `u` of `RecentUrls`. -/
def RecentArgs (f : Flags) : UrlArgs :=
  { ResourceUri := "posts/recent", Params := (RecentParams f).Encode }

/-- The function `RecentUrls`. -/
def RecentUrls (f : Flags) (env : Env) : Proc Unit := do
  let recent_url := (RecentArgs f).BuildUrl f
  let body ← HttpGet f env recent_url
  match env.unmarshalPosts body with
  | .error err => panic (.error err)
  | .ok content => printPosts f content.Posts

/-- The query parameters `p` of `AllUrls`. -/
def AllParams (f : Flags) : Values :=
  let p : Values := []
  let p := if f.allStart ≠ "" then p.Set "start" f.allStart else p
  let p := if f.allResults ≠ "" then p.Set "results" f.allResults else p
  let p := if f.allTags ≠ "" then p.Set "tag" f.allTags else p
  let p := if f.allFrom ≠ "" then p.Set "fromdt" f.allFrom else p
  let p := if f.allTill ≠ "" then p.Set "todt" f.allTill else p
  p

/-- The `UrlArgs` value `u` of `AllUrls`. -/
def AllArgs (f : Flags) : UrlArgs :=
  { ResourceUri := "posts/all", Params := (AllParams f).Encode }

/-- The function `AllUrls`. -/
def AllUrls (f : Flags) (env : Env) : Proc Unit := do
  let all_url := (AllArgs f).BuildUrl f
  let body ← HttpGet f env all_url
  match env.unmarshalAll body with
  | .error err => logPanic [.err err]
  | .ok content => printPosts f content

/-- The commands of the application, the values `kingpin.MustParse` can return. -/
inductive Command where
  | recent | all | add | delete | get | suggest
deriving DecidableEq, Repr

/-- The function `main`: the `switch` over the parsed command. -/
def main (f : Flags) (env : Env) : Command → Proc Unit
  | .recent => RecentUrls f env
  | .all => AllUrls f env
  | .add => AddUrl f env
  | .delete => DeleteUrl f env
  | .get => GetUrl f env
  | .suggest => SuggestUrl f env

/-! ## Notions used to state the properties -/

/-- The `UrlArgs` value the handler of a command builds. -/
def commandArgs (f : Flags) : Command → UrlArgs
  | .recent => RecentArgs f
  | .all => AllArgs f
  | .add => AddArgs f
  | .delete => DeleteArgs f
  | .get => GetArgs f
  | .suggest => SuggestArgs f

/-- The URL the handler of a command requests. -/
def requestUrl (f : Flags) (c : Command) : String := (commandArgs f c).BuildUrl f

/-- The string `s` occurs in `t`. -/
def Contains (t s : String) : Prop := ∃ a b : String, t = a ++ s ++ b

/-- The query part of a URL: what follows its first `?`. -/
def queryPart (url : String) : List Char := (url.data.dropWhile fun c => c ≠ '?').drop 1

/-- The pieces of a text between the occurrences of the separator `sep`. -/
def splitOn (sep : Char) : List Char → List (List Char)
  | [] => [[]]
  | c :: cs =>
    if c = sep then [] :: splitOn sep cs
    else
      match splitOn sep cs with
      | [] => [[c]]
      | seg :: segs => (c :: seg) :: segs

/-- The keys of the query parameters of a URL: the query part is split on `&` and each
piece on its first `=`; the key is what stands before it (the whole piece when it has no
`=`). -/
def queryKeys (url : String) : List String :=
  (splitOn '&' (queryPart url)).map fun seg => ⟨seg.takeWhile fun c => c ≠ '='⟩

/-- A piece `QueryEscape k = QueryEscape x` with `k` among the keys `K`. -/
def IsPair (K : List String) (seg : List Char) : Prop :=
  ∃ k ∈ K, ∃ x : String, seg = (QueryEscape k).data ++ '=' :: (QueryEscape x).data

/-- The invariant of the buffer of `Values.Encode`: it is empty or each of its pieces
between `&` is a pair. -/
def BufInv (K : List String) (buf : String) : Prop :=
  buf = "" ∨ ∀ seg ∈ splitOn '&' buf.data, IsPair K seg

/-- The strings of a list written one after the other. -/
def concat (l : List String) : String := l.foldr (fun a b => a ++ b) ""

/-- A command line for the examples: credentials `user` and `0123`, no global flag, no
optional flag, and `http://example.com/` with title `Example` where a flag is required. -/
def plainFlags : Flags :=
  { username := "user", token := "0123", json_resp := false, show_date := false,
    recentCount := "", recentTags := "", allStart := "", allResults := "", allTags := "",
    allFrom := "", allTill := "", addUrl := "http://example.com/", addTitle := "Example",
    addDescription := "", addTags := "", addNoReplace := false, addPrivate := false,
    addUnread := false, deleteUrl := "http://example.com/", getUrl := "", getTags := "",
    getDate := "", suggestUrl := "http://example.com/" }

/-- The decode error of the examples, what `json.Unmarshal` reports on `not json`. -/
def decodeError : String := "invalid character 'o' in literal null (expecting 'u')"

/-- The two posts of the examples. -/
def fixturePosts : List Post :=
  [ { Href := "https://a.example/", Description := "A", Extended := "", Meta := "m1",
      Hash := "h1", Time := ⟨0, 2, 15, 4, 5⟩, Shared := "yes", Toread := "no", Tags := "x" },
    { Href := "https://b.example/", Description := "B", Extended := "", Meta := "m2",
      Hash := "h2", Time := ⟨10, 23, 7, 30, 0⟩, Shared := "no", Toread := "yes", Tags := "" } ]

/-- The body of an add or delete response with the result code `done`. -/
def shortFixture : String := "\x7b\"result_code\":\"done\"\x7d"

/-- The body of a suggest response with the popular tags `a`, `b` and the recommended
tag `c`. -/
def suggestFixture : String :=
  "[\x7b\"popular\":[\"a\",\"b\"]\x7d,\x7b\"recommended\":[\"c\"]\x7d]"

/-- The body of a suggest response with one element only. -/
def suggestOneFixture : String := "[\x7b\"popular\":[\"a\",\"b\"]\x7d]"

/-- The body of an all response with the two posts of `fixturePosts`. -/
def allFixture : String :=
  "[\x7b\"href\":\"https://a.example/\",\"description\":\"A\",\"extended\":\"\","
    ++ "\"meta\":\"m1\",\"hash\":\"h1\",\"time\":\"2016-01-02T15:04:05Z\","
    ++ "\"shared\":\"yes\",\"toread\":\"no\",\"tags\":\"x\"\x7d,"
    ++ "\x7b\"href\":\"https://b.example/\",\"description\":\"B\",\"extended\":\"\","
    ++ "\"meta\":\"m2\",\"hash\":\"h2\",\"time\":\"2016-11-23T07:30:00Z\","
    ++ "\"shared\":\"no\",\"toread\":\"yes\",\"tags\":\"\"\x7d]"

/-- The body of a recent or get response with the two posts of `fixturePosts`. -/
def postsFixture : String :=
  "\x7b\"date\":\"2016-11-23T07:30:00Z\",\"user\":\"user\",\"posts\":" ++ allFixture
    ++ "\x7d"

/-- An environment for the examples: the server answers every request with the status
`status` and the body `body`; `json.Unmarshal` is given by its results on the fixture
bodies and on `[]`, and reports `decodeError` on any other body. -/
def fixtureEnv (status : Nat) (body : String) : Env :=
  { Get := fun _ => .ok ⟨status, .ok body⟩
    unmarshalSuggest := fun b =>
      if b = suggestFixture then .ok [⟨["a", "b"], []⟩, ⟨[], ["c"]⟩]
      else if b = suggestOneFixture then .ok [⟨["a", "b"], []⟩]
      else if b = "[]" then .ok []
      else .error decodeError
    unmarshalPosts := fun b =>
      if b = postsFixture then .ok ⟨⟨10, 23, 7, 30, 0⟩, "user", fixturePosts⟩ else .error decodeError
    unmarshalAll := fun b =>
      if b = allFixture then .ok fixturePosts else .error decodeError
    unmarshalShort := fun b =>
      if b = shortFixture then .ok ⟨"done"⟩ else .error decodeError }

/-! ## Lemmas on the process -/

theorem bind_out_res {α β : Type} (m : Proc α) (g : α → Proc β) :
    (m >>= g) = Proc.bind m g := rfl

theorem bind_ok {α β : Type} (o : String) (a : α) (g : α → Proc β) :
    Proc.bind ⟨o, .ok a⟩ g = ⟨o ++ (g a).out, (g a).res⟩ := rfl

theorem bind_exit {α β : Type} (o : String) (c : Nat) (g : α → Proc β) :
    Proc.bind ⟨o, .exit c⟩ g = ⟨o, .exit c⟩ := rfl

theorem bind_panic {α β : Type} (o : String) (v : PanicValue) (g : α → Proc β) :
    Proc.bind ⟨o, .panic v⟩ g = ⟨o, .panic v⟩ := rfl

theorem pure_eq {α : Type} (a : α) : (pure a : Proc α) = ⟨"", .ok a⟩ := rfl

/-- A transport failure: `HttpGet` panics with its first message. -/
theorem HttpGet_transport (f : Flags) (env : Env) (url e : String)
    (h : env.Get url = .error e) :
    HttpGet f env url = ⟨"", .panic (.str "Can't access pinboard API server")⟩ := by
  simp [HttpGet, h, panic]

/-- Status 429: `HttpGet` panics with the rate-limit message. -/
theorem HttpGet_429 (f : Flags) (env : Env) (url : String) (b : Except String String)
    (h : env.Get url = .ok ⟨429, b⟩) :
    HttpGet f env url
      = ⟨"", .panic (.str "Too many request to Pinboards API. Come back later")⟩ := by
  simp [HttpGet, h, panic, StatusTooManyRequests, bind_out_res, bind_panic]

/-- A status other than 200 and 429: `HttpGet` panics through `log.Panic`. -/
theorem HttpGet_status (f : Flags) (env : Env) (url : String) (s : Nat)
    (b : Except String String) (h : env.Get url = .ok ⟨s, b⟩) (h1 : s ≠ 429) (h2 : s ≠ 200) :
    HttpGet f env url
      = ⟨"", .panic (.str (Sprint [.str "Unexpected status code: %s. Expecting: %s",
          .int s, .int 200]))⟩ := by
  simp [HttpGet, h, panic, logPanic, StatusTooManyRequests, StatusOK, h1, h2, bind_out_res,
    bind_panic, bind_ok, pure_eq]

/-- Status 200, the body cannot be read: `HttpGet` panics through `log.Panic`. -/
theorem HttpGet_read (f : Flags) (env : Env) (url e : String)
    (h : env.Get url = .ok ⟨200, .error e⟩) :
    HttpGet f env url = ⟨"", .panic (.str e)⟩ := by
  simp [HttpGet, h, panic, logPanic, StatusTooManyRequests, StatusOK, bind_out_res,
    bind_panic, bind_ok, pure_eq, Sprint, doPrint, Arg.printArg, Arg.isString]

/-- Status 200 with the raw-JSON flag: the body and a newline are printed, exit 0. -/
theorem HttpGet_json (f : Flags) (env : Env) (url body : String)
    (h : env.Get url = .ok ⟨200, .ok body⟩) (hj : f.json_resp = true) :
    HttpGet f env url = ⟨body ++ "\n", .exit 0⟩ := by
  simp [HttpGet, h, hj, Exit, Println, StatusTooManyRequests, StatusOK, bind_out_res,
    bind_exit, bind_ok, pure_eq, Sprintln, doPrintln, Arg.printArg]

/-- Status 200 without the raw-JSON flag: the body is returned. -/
theorem HttpGet_body (f : Flags) (env : Env) (url body : String)
    (h : env.Get url = .ok ⟨200, .ok body⟩) (hj : f.json_resp = false) :
    HttpGet f env url = ⟨"", .ok body⟩ := by
  simp [HttpGet, h, hj, StatusTooManyRequests, StatusOK, bind_out_res, bind_ok, pure_eq]

/-- Every handler starts with `HttpGet` on its URL and goes on only when it returned. -/
theorem main_eq_bind (f : Flags) (env : Env) (c : Command) :
    ∃ k : String → Proc Unit, main f env c = Proc.bind (HttpGet f env (requestUrl f c)) k := by
  cases c <;> exact ⟨_, rfl⟩

/-- The loop that prints the tags of a suggest response. -/
theorem forRange_tags (tags : List String) :
    forRange tags (fun tag => Print [.str tag, .str ", "])
      = ⟨concat (tags.map fun t => t ++ ", "), .ok ()⟩ := by
  induction tags with
  | nil => rfl
  | cons t ts ih =>
    simp only [forRange, ih]
    simp [bind_out_res, Print, bind_ok, Sprint, doPrint, Arg.printArg, Arg.isString, concat]

/-- The loop that prints the posts. -/
theorem printPosts_eq (f : Flags) (posts : List Post) :
    printPosts f posts
      = ⟨concat (posts.map fun p =>
            (if f.show_date then p.Time.FormatStamp ++ ", " else "") ++ p.Href ++ "\n"),
          .ok ()⟩ := by
  unfold printPosts
  induction posts with
  | nil => rfl
  | cons p ps ih =>
    simp only [forRange, ih]
    cases hs : f.show_date <;>
      simp [bind_out_res, Print, bind_ok, Sprint, doPrint, Arg.printArg, Arg.isString, pure_eq,
        String.append_assoc, concat]

/-- The digits of a number hold no newline. -/
theorem toDigitsCore_no_newline (fuel n : Nat) (ds : List Char) (h : '\n' ∉ ds) :
    '\n' ∉ Nat.toDigitsCore 10 fuel n ds := by
  induction fuel generalizing n ds with
  | zero => simpa [Nat.toDigitsCore] using h
  | succ k ih =>
    have hd : ∀ m, m < 10 → Nat.digitChar m ≠ '\n' := by decide
    have hm : '\n' ∉ Nat.digitChar (n % 10) :: ds := by
      intro hc
      rcases List.mem_cons.1 hc with h1 | h1
      · exact hd (n % 10) (Nat.mod_lt _ (by decide)) h1.symm
      · exact h h1
    unfold Nat.toDigitsCore
    simp only
    split
    · exact hm
    · exact ih _ _ hm

/-- A number in base 10 holds no newline. -/
theorem toString_no_newline (n : Nat) : '\n' ∉ (toString n).data := by
  show '\n' ∉ (Nat.repr n).data
  simp only [Nat.repr, List.asString, Nat.toDigits]
  exact toDigitsCore_no_newline _ _ _ (by simp)

/-- A padded number holds no newline. -/
theorem appendInt_no_newline (x w : Nat) : '\n' ∉ (appendInt x w).data := by
  have := toString_no_newline x
  simp [appendInt, List.mem_replicate]
  exact this

/-- A time in stamp format holds no newline. -/
theorem FormatStamp_no_newline (t : Time) : '\n' ∉ t.FormatStamp.data := by
  have hm : ∀ m : Fin 12, '\n' ∉ (shortMonthNames.getD m.val "").data := by decide
  have h1 := hm t.Month
  have h2 := appendInt_no_newline t.Day 0
  have h3 := appendInt_no_newline t.Hour 2
  have h4 := appendInt_no_newline t.Minute 2
  have h5 := appendInt_no_newline t.Second 2
  rw [List.getD_eq_getElem?_getD] at h1
  unfold Time.FormatStamp
  split <;> simp [h1, h2, h3, h4, h5]

/-- The lines of posts whose hrefs hold no newline hold one newline each. -/
theorem count_newline_lines (show_date : Bool) (posts : List Post)
    (h : ∀ p ∈ posts, '\n' ∉ p.Href.data) :
    (concat (posts.map fun p =>
        (if show_date then p.Time.FormatStamp ++ ", " else "") ++ p.Href ++ "\n")).data.count
      '\n' = posts.length := by
  induction posts with
  | nil => rfl
  | cons p ps ih =>
    have hp := h p (List.mem_cons_self _ _)
    have hs := FormatStamp_no_newline p.Time
    have ih' := ih (fun q hq => h q (List.mem_cons_of_mem _ hq))
    simp only [concat] at ih'
    cases show_date
    · simp only [Bool.false_eq_true, if_false, String.empty_append] at ih'
      simp [concat, List.count_append, List.count_eq_zero_of_not_mem, hp, ih']
    · simp only [if_true] at ih'
      simp [concat, List.count_append, List.count_eq_zero_of_not_mem, hp, hs, ih']

/-- The entries of a map after `Set`. -/
theorem mem_Set (p : Values) (key value k : String) (vs : List String) :
    (k, vs) ∈ p.Set key value ↔ (k = key ∧ vs = [value]) ∨ (k ≠ key ∧ (k, vs) ∈ p) := by
  simp [Values.Set, List.mem_filter]
  tauto

/-- The URL `BuildUrl` returns. -/
theorem BuildUrl_eq (f : Flags) (u : UrlArgs) :
    u.BuildUrl f
        = "https://api.pinboard.in/v1" ++ "/" ++ u.ResourceUri ++ "?auth_token=" ++ f.username
            ++ ":" ++ f.token ++ "&format=json&" ++ u.Params := by
  apply String.ext
  simp [UrlArgs.BuildUrl, Sprintf, sprintfAux, base_url]

/-- A split has at least one piece. -/
theorem splitOn_ne_nil (sep : Char) (l : List Char) : splitOn sep l ≠ [] := by
  induction l with
  | nil => simp [splitOn]
  | cons c cs ih =>
    unfold splitOn
    split
    · simp
    · split <;> simp

/-- Splitting a text around an occurrence of the separator. -/
theorem splitOn_append_sep (sep : Char) (a b : List Char) :
    splitOn sep (a ++ sep :: b) = splitOn sep a ++ splitOn sep b := by
  induction a with
  | nil => simp [splitOn]
  | cons c cs ih =>
    by_cases hc : c = sep
    · simp [splitOn, hc, ih]
    · have h1 := splitOn_ne_nil sep cs
      cases hs : splitOn sep cs with
      | nil => exact absurd hs h1
      | cons seg segs => simp [splitOn, hc, ih, hs]

/-- A text without the separator is one piece. -/
theorem splitOn_of_not_mem (sep : Char) (a : List Char) (h : sep ∉ a) :
    splitOn sep a = [a] := by
  induction a with
  | nil => simp [splitOn]
  | cons c cs ih =>
    have hc : c ≠ sep := fun e => h (by simp [e])
    have hcs : sep ∉ cs := fun e => h (by simp [e])
    simp [splitOn, hc, ih hcs]

/-- What stands before the first separator. -/
theorem takeWhile_append_sep (sep : Char) (a b : List Char) (h : sep ∉ a) :
    (a ++ sep :: b).takeWhile (fun c => c ≠ sep) = a := by
  induction a with
  | nil => simp [List.takeWhile]
  | cons c cs ih =>
    have hc : c ≠ sep := fun e => h (by simp [e])
    have hcs : sep ∉ cs := fun e => h (by simp [e])
    show List.takeWhile _ (c :: (cs ++ sep :: b)) = _
    rw [List.takeWhile_cons_of_pos (by simpa using hc), ih hcs]

/-- What stands from the first separator on. -/
theorem dropWhile_append_sep (sep : Char) (a b : List Char) (h : sep ∉ a) :
    (a ++ sep :: b).dropWhile (fun c => c ≠ sep) = sep :: b := by
  induction a with
  | nil => simp [List.dropWhile]
  | cons c cs ih =>
    have hc : c ≠ sep := fun e => h (by simp [e])
    have hcs : sep ∉ cs := fun e => h (by simp [e])
    show List.dropWhile _ (c :: (cs ++ sep :: b)) = _
    rw [List.dropWhile_cons_of_pos (by simpa using hc), ih hcs]

/-- A hexadecimal digit is neither `&` nor `=`. -/
theorem upperhex_getD (i : Nat) :
    upperhex.data.getD i '0' ≠ '&' ∧ upperhex.data.getD i '0' ≠ '=' := by
  by_cases h : i < 16
  · interval_cases i <;> decide
  · have : upperhex.data.length ≤ i := by
      have : upperhex.data.length = 16 := by decide
      omega
    rw [List.getD_eq_default _ _ this]
    decide

/-- A byte that is not escaped is neither `&` nor `=`. -/
theorem unreserved_char (c : Nat) (h : shouldEscape c = false) :
    Char.ofNat c ≠ '&' ∧ Char.ofNat c ≠ '=' := by
  have hlt : c < 128 := by
    by_contra hge
    have : shouldEscape c = true := by
      unfold shouldEscape
      have e1 : 'a'.toNat = 97 := rfl
      have e2 : 'z'.toNat = 122 := rfl
      have e3 : 'A'.toNat = 65 := rfl
      have e4 : 'Z'.toNat = 90 := rfl
      have e5 : '0'.toNat = 48 := rfl
      have e6 : '9'.toNat = 57 := rfl
      have e7 : '-'.toNat = 45 := rfl
      have e8 : '_'.toNat = 95 := rfl
      have e9 : '.'.toNat = 46 := rfl
      have e10 : '~'.toNat = 126 := rfl
      rw [e1, e2, e3, e4, e5, e6, e7, e8, e9, e10]
      rw [if_neg (by omega), if_neg (by omega)]
    rw [this] at h
    exact absurd h (by decide)
  have key : ∀ n, n < 128 → shouldEscape n = false →
      Char.ofNat n ≠ '&' ∧ Char.ofNat n ≠ '=' := by decide
  exact key c hlt h

/-- What `escape` writes for a byte holds neither `&` nor `=`. -/
theorem escapeByte_clean (c : Nat) : '&' ∉ escapeByte c ∧ '=' ∉ escapeByte c := by
  unfold escapeByte
  have h1 := upperhex_getD (c / 16)
  have h2 := upperhex_getD (c % 16)
  rw [List.getD_eq_getElem?_getD] at h1 h2
  split
  · decide
  · split
    · refine ⟨?_, ?_⟩ <;> simp [h1.1.symm, h1.2.symm, h2.1.symm, h2.2.symm]
    · rename_i h
      have h3 := unreserved_char c (by simpa using h)
      refine ⟨?_, ?_⟩ <;> simp [h3.1.symm, h3.2.symm]

/-- The result of `QueryEscape` holds neither `&` nor `=`. -/
theorem QueryEscape_clean (s : String) :
    '&' ∉ (QueryEscape s).data ∧ '=' ∉ (QueryEscape s).data := by
  unfold QueryEscape
  simp only [List.mem_flatMap, not_exists, not_and]
  exact ⟨fun c _ => (escapeByte_clean c).1, fun c _ => (escapeByte_clean c).2⟩

/-- The inner loop of `Encode` keeps the invariant of the buffer. -/
theorem encodeKey_inv (K : List String) (k : String) (hk : k ∈ K) (vs : List String)
    (buf : String) (h : BufInv K buf) : BufInv K (encodeKey (QueryEscape k) vs buf) := by
  induction vs generalizing buf with
  | nil => simpa [encodeKey] using h
  | cons x xs ih =>
    unfold encodeKey
    apply ih
    right
    have hpair : '&' ∉ (QueryEscape k).data ++ '=' :: (QueryEscape x).data := by
      have h1 := (QueryEscape_clean k).1
      have h2 := (QueryEscape_clean x).1
      simp [h1, h2]
    by_cases hb : buf = ""
    · subst hb
      intro seg hseg
      have e : ((if "".length > 0 then "" ++ "&" else "") ++ QueryEscape k ++ "="
          ++ QueryEscape x).data = (QueryEscape k).data ++ '=' :: (QueryEscape x).data := by
        simp
      rw [e, splitOn_of_not_mem _ _ hpair] at hseg
      exact ⟨k, hk, x, by simpa using hseg⟩
    · rcases h with h | h
      · exact absurd h hb
      · have hlen : buf.length > 0 := by
          have : buf.data ≠ [] := fun e => hb (String.ext (by simpa using e))
          exact List.length_pos.2 this
        intro seg hseg
        have e : ((if buf.length > 0 then buf ++ "&" else buf) ++ QueryEscape k ++ "="
            ++ QueryEscape x).data
              = buf.data ++ '&' :: ((QueryEscape k).data ++ '=' :: (QueryEscape x).data) := by
          simp [hlen]
        rw [e, splitOn_append_sep, splitOn_of_not_mem _ _ hpair] at hseg
        rcases List.mem_append.1 hseg with h1 | h1
        · exact h seg h1
        · exact ⟨k, hk, x, by simpa using h1⟩

/-- The outer loop of `Encode` keeps the invariant of the buffer. -/
theorem encodeKeys_inv (K : List String) (v : Values) (ks : List String)
    (hks : ∀ k ∈ ks, k ∈ K) (buf : String) (h : BufInv K buf) :
    BufInv K (encodeKeys v ks buf) := by
  induction ks generalizing buf with
  | nil => simpa [encodeKeys] using h
  | cons k ks ih =>
    unfold encodeKeys
    exact ih (fun a ha => hks a (List.mem_cons_of_mem _ ha)) _
      (encodeKey_inv K k (hks k (List.mem_cons_self _ _)) _ _ h)

/-- The result of `Encode` is empty or made of pairs whose keys are keys of the map. -/
theorem Encode_inv (v : Values) : BufInv (v.map Prod.fst) v.Encode := by
  unfold Values.Encode
  refine encodeKeys_inv _ v _ (fun k hk => ?_) "" (Or.inl rfl)
  unfold sortStrings at hk
  exact (List.perm_insertionSort _ _).mem_iff.1 hk

/-- The keys of the query of a built URL. -/
theorem queryKeys_BuildUrl (f : Flags) (r : String) (p : Values) (key : String)
    (hr : '?' ∉ ("https://api.pinboard.in/v1" ++ "/" ++ r).data)
    (hu : '&' ∉ f.username.data) (ht : '&' ∉ f.token.data)
    (h : key ∈ queryKeys (UrlArgs.BuildUrl f { ResourceUri := r, Params := p.Encode })) :
    key = "auth_token" ∨ key = "format" ∨ key = ""
      ∨ ∃ k ∈ p.map Prod.fst, key = QueryEscape k := by
  have hurl := (BuildUrl_eq f { ResourceUri := r, Params := p.Encode })
  have e : (UrlArgs.BuildUrl f { ResourceUri := r, Params := p.Encode }).data
      = ("https://api.pinboard.in/v1" ++ "/" ++ r).data ++ '?' ::
          (("auth_token=".data ++ (f.username.data ++ ':' :: f.token.data)) ++ '&' ::
            ("format=json".data ++ '&' :: p.Encode.data)) := by
    rw [hurl]; simp
  unfold queryKeys queryPart at h
  rw [e, dropWhile_append_sep _ _ _ hr] at h
  simp only [List.drop_one, List.tail_cons] at h
  have h1 : '&' ∉ "auth_token=".data ++ (f.username.data ++ ':' :: f.token.data) := by
    simp [hu, ht]
  have h2 : ('&' : Char) ∉ "format=json".data := by decide
  rw [splitOn_append_sep, splitOn_append_sep, splitOn_of_not_mem _ _ h1,
    splitOn_of_not_mem _ _ h2] at h
  simp only [List.map_append, List.map_cons, List.map_nil, List.mem_append, List.mem_cons,
    List.mem_singleton, List.not_mem_nil, or_false, List.mem_map] at h
  rcases h with h | h | ⟨seg, hseg, h⟩
  · left
    rw [h]
    have : "auth_token=".data ++ (f.username.data ++ ':' :: f.token.data)
        = "auth_token".data ++ '=' :: (f.username.data ++ ':' :: f.token.data) := by simp
    rw [this, takeWhile_append_sep _ _ _ (by decide)]
  · right; left
    rw [h]
    decide
  · right; right
    rcases Encode_inv p with hq | hq
    · left
      rw [hq] at hseg
      have : seg = [] := by simpa [splitOn] using hseg
      rw [← h, this]
      rfl
    · right
      obtain ⟨k, hk, x, hx⟩ := hq seg hseg
      refine ⟨k, hk, ?_⟩
      rw [← h, hx, takeWhile_append_sep _ _ _ (QueryEscape_clean k).2]

/-- The keys after a conditional `Set`. -/
theorem keys_ite_Set (c : Prop) [Decidable c] (p : Values) (a b k : String)
    (hk : k ∈ (if c then p.Set a b else p).map Prod.fst) :
    (c ∧ k = a) ∨ k ∈ p.map Prod.fst := by
  by_cases hc : c
  · rw [if_pos hc] at hk
    simp only [Values.Set, List.map_cons, List.mem_cons, List.mem_map, List.mem_filter] at hk
    rcases hk with h | ⟨x, ⟨hx, _⟩, rfl⟩
    · exact Or.inl ⟨hc, h⟩
    · exact Or.inr (List.mem_map.2 ⟨x, hx, rfl⟩)
  · rw [if_neg hc] at hk
    exact Or.inr hk

/-- The keys after `Set`. -/
theorem keys_Set (p : Values) (a b k : String) (hk : k ∈ (p.Set a b).map Prod.fst) :
    k = a ∨ k ∈ p.map Prod.fst := by
  have := keys_ite_Set True p a b k (by simpa using hk)
  simpa using this

/-- The keys of the parameters of `RecentUrls`. -/
theorem RecentParams_keys (f : Flags) (k : String)
    (hk : k ∈ (RecentParams f).map Prod.fst) :
    (f.recentTags ≠ "" ∧ k = "tag") ∨ (f.recentCount ≠ "" ∧ k = "count") := by
  rcases keys_ite_Set _ _ _ _ _ hk with h | hk
  · exact Or.inr h
  rcases keys_ite_Set _ _ _ _ _ hk with h | hk
  · exact Or.inl h
  simp at hk

/-- The keys of the parameters of `AllUrls`. -/
theorem AllParams_keys (f : Flags) (k : String)
    (hk : k ∈ (AllParams f).map Prod.fst) :
    (f.allStart ≠ "" ∧ k = "start") ∨ (f.allResults ≠ "" ∧ k = "results")
      ∨ (f.allTags ≠ "" ∧ k = "tag") ∨ (f.allFrom ≠ "" ∧ k = "fromdt")
      ∨ (f.allTill ≠ "" ∧ k = "todt") := by
  rcases keys_ite_Set _ _ _ _ _ hk with h | hk
  · exact Or.inr (Or.inr (Or.inr (Or.inr h)))
  rcases keys_ite_Set _ _ _ _ _ hk with h | hk
  · exact Or.inr (Or.inr (Or.inr (Or.inl h)))
  rcases keys_ite_Set _ _ _ _ _ hk with h | hk
  · exact Or.inr (Or.inr (Or.inl h))
  rcases keys_ite_Set _ _ _ _ _ hk with h | hk
  · exact Or.inr (Or.inl h)
  rcases keys_ite_Set _ _ _ _ _ hk with h | hk
  · exact Or.inl h
  simp at hk

/-- The keys of the parameters of `GetUrl`. -/
theorem GetParams_keys (f : Flags) (k : String)
    (hk : k ∈ (GetParams f).map Prod.fst) :
    (f.getTags ≠ "" ∧ k = "tag") ∨ (f.getDate ≠ "" ∧ k = "dt")
      ∨ (f.getUrl ≠ "" ∧ k = "url") := by
  rcases keys_ite_Set _ _ _ _ _ hk with h | hk
  · exact Or.inr (Or.inr h)
  rcases keys_ite_Set _ _ _ _ _ hk with h | hk
  · exact Or.inr (Or.inl h)
  rcases keys_ite_Set _ _ _ _ _ hk with h | hk
  · exact Or.inl h
  simp at hk

/-- The keys of the parameters of `AddUrl`. -/
theorem AddParams_keys (f : Flags) (k : String)
    (hk : k ∈ (AddParams f).map Prod.fst) :
    k = "url" ∨ k = "description" ∨ (f.addDescription ≠ "" ∧ k = "extended")
      ∨ (f.addTags ≠ "" ∧ k = "tags") ∨ (f.addNoReplace = true ∧ k = "replace")
      ∨ (f.addPrivate = true ∧ k = "shared") ∨ (f.addUnread = true ∧ k = "toread") := by
  rcases keys_ite_Set _ _ _ _ _ hk with h | hk
  · exact Or.inr (Or.inr (Or.inr (Or.inr (Or.inr (Or.inr h)))))
  rcases keys_ite_Set _ _ _ _ _ hk with h | hk
  · exact Or.inr (Or.inr (Or.inr (Or.inr (Or.inr (Or.inl h)))))
  rcases keys_ite_Set _ _ _ _ _ hk with h | hk
  · exact Or.inr (Or.inr (Or.inr (Or.inr (Or.inl h))))
  rcases keys_ite_Set _ _ _ _ _ hk with h | hk
  · exact Or.inr (Or.inr (Or.inr (Or.inl h)))
  rcases keys_ite_Set _ _ _ _ _ hk with h | hk
  · exact Or.inr (Or.inr (Or.inl h))
  rcases keys_Set _ _ _ _ hk with h | hk
  · exact Or.inr (Or.inl h)
  rcases keys_Set _ _ _ _ hk with h | hk
  · exact Or.inl h
  simp at hk

/-- The suggest handler on a decoded sequence with at least two elements. -/
theorem SuggestUrl_two (f : Flags) (env : Env) (body : String) (e0 e1 : SuggestItem)
    (rest : List SuggestItem)
    (hget : env.Get (requestUrl f .suggest) = .ok ⟨200, .ok body⟩)
    (hj : f.json_resp = false)
    (hdec : env.unmarshalSuggest body = .ok (e0 :: e1 :: rest)) :
    main f env .suggest
      = ⟨"Popular:\n" ++ concat (e0.Popular.map fun t => t ++ ", ") ++ "\n"
          ++ "Recommended:\n" ++ concat (e1.Recommended.map fun t => t ++ ", ") ++ "\n",
        .ok ()⟩ := by
  have hb := HttpGet_body f env _ body hget hj
  simp only [requestUrl, commandArgs] at hb
  simp only [main, SuggestUrl, hb, bind_out_res, bind_ok, hdec, forRange_tags, index]
  simp [Println, Print, Sprintln, doPrintln, Sprint, doPrint, Arg.printArg, Arg.isString,
    pure_eq, bind_ok]
  apply String.ext
  simp

/-! ## The properties -/

/-- C1: `BuildUrl` returns exactly the base URL, `/`, the resource path, `?auth_token=`,
the username, `:`, the token, `&format=json&` and the query string; the result depends on
nothing else (the fields `Username` and `Token` of `UrlArgs` and the other flags play no
part) and always contains the auth token parameter and `format=json`. -/
theorem BuildUrl_spec (f : Flags) (u : UrlArgs) :
    u.BuildUrl f
        = "https://api.pinboard.in/v1" ++ "/" ++ u.ResourceUri ++ "?auth_token=" ++ f.username
            ++ ":" ++ f.token ++ "&format=json&" ++ u.Params
      ∧ Contains (u.BuildUrl f) ("auth_token=" ++ f.username ++ ":" ++ f.token)
      ∧ Contains (u.BuildUrl f) "format=json" := by
  have h := BuildUrl_eq f u
  refine ⟨h, ?_, ?_⟩
  · refine ⟨"https://api.pinboard.in/v1" ++ "/" ++ u.ResourceUri ++ "?",
      "&format=json&" ++ u.Params, ?_⟩
    rw [h]; apply String.ext; simp
  · refine ⟨"https://api.pinboard.in/v1" ++ "/" ++ u.ResourceUri ++ "?auth_token="
      ++ f.username ++ ":" ++ f.token ++ "&", "&" ++ u.Params, ?_⟩
    rw [h]; apply String.ext; simp

/-- C9: when the response decodes to a `ShortResponse` with result code `c`, the add
handler and the delete handler print `c` followed by one newline and nothing else, and
return. -/
theorem short_response_output (f : Flags) (env : Env) (cmd : Command) (body c : String)
    (hcmd : cmd = .add ∨ cmd = .delete)
    (hget : env.Get (requestUrl f cmd) = .ok ⟨200, .ok body⟩)
    (hj : f.json_resp = false)
    (hdec : env.unmarshalShort body = .ok ⟨c⟩) :
    main f env cmd = ⟨c ++ "\n", .ok ()⟩ := by
  have hb := HttpGet_body f env _ body hget hj
  rcases hcmd with rfl | rfl
  · simp only [requestUrl, commandArgs] at hb
    simp [main, AddUrl, hb, bind_out_res, bind_ok, hdec, Print, Sprint, doPrint,
      Arg.printArg, Arg.isString]
  · simp only [requestUrl, commandArgs] at hb
    simp [main, DeleteUrl, hb, bind_out_res, bind_ok, hdec, Print, Sprint, doPrint,
      Arg.printArg, Arg.isString]

/-- C9 at the fixture the result code fixture: both handlers print `done` and a newline. -/
theorem short_response_output_witness :
    main plainFlags (fixtureEnv 200 shortFixture) .add = ⟨"done\n", .ok ()⟩
      ∧ main plainFlags (fixtureEnv 200 shortFixture) .delete
          = ⟨"done\n", .ok ()⟩ :=
  ⟨short_response_output plainFlags (fixtureEnv 200 shortFixture) .add
      shortFixture "done" (Or.inl rfl) rfl rfl (by rfl),
    short_response_output plainFlags (fixtureEnv 200 shortFixture) .delete
      shortFixture "done" (Or.inr rfl) rfl rfl (by rfl)⟩



/-- C3, as amended: with the raw-JSON flag set and a status 200 response whose body `b` was
read, every command writes `b` followed by one newline (the newline of `fmt.Println`) to
standard output and exits with status 0; the decoders of the environment play no part. -/
theorem raw_json_output (f : Flags) (env : Env) (c : Command) (b : String)
    (hj : f.json_resp = true)
    (hget : env.Get (requestUrl f c) = .ok ⟨200, .ok b⟩) :
    main f env c = ⟨b ++ "\n", .exit 0⟩ := by
  obtain ⟨k, hk⟩ := main_eq_bind f env c
  rw [hk, HttpGet_json f env _ b hget hj, bind_exit]

/-- C3, as amended, at the delete command and a body that does not decode. -/
theorem raw_json_output_witness :
    main { plainFlags with json_resp := true } (fixtureEnv 200 "not json") .delete
      = ⟨"not json" ++ "\n", .exit 0⟩ :=
  raw_json_output { plainFlags with json_resp := true } (fixtureEnv 200 "not json") .delete
    "not json" rfl rfl

/-- C3 as stated fails: with the raw-JSON flag set and the body `not json`, the delete
command writes `not json` and a newline to standard output, which is not the body. -/
theorem raw_json_not_verbatim :
    ({ plainFlags with json_resp := true } : Flags).json_resp = true
      ∧ (fixtureEnv 200 "not json").Get
          (requestUrl { plainFlags with json_resp := true } .delete)
          = .ok ⟨200, .ok "not json"⟩
      ∧ (main { plainFlags with json_resp := true } (fixtureEnv 200 "not json") .delete).out
          = "not json\n"
      ∧ (main { plainFlags with json_resp := true } (fixtureEnv 200 "not json") .delete).out
          ≠ "not json" := by
  refine ⟨rfl, rfl, ?_, ?_⟩ <;> decide

/-- C4: for a completed request with status `s`, whatever the flags (the raw-JSON flag
included), the body and the command: at 429 `HttpGet` and the handler panic with the
rate-limit message and nothing on standard output; at any status other than 200 and 429
they panic with the message `log.Panic` builds, which differs from the rate-limit message
and contains `s` in base 10, and nothing on standard output; `HttpGet` returns a body
only at status 200. -/
theorem status_decides (f : Flags) (env : Env) (c : Command) (s : Nat)
    (b : Except String String) (hget : env.Get (requestUrl f c) = .ok ⟨s, b⟩) :
    (s = 429 →
        HttpGet f env (requestUrl f c)
            = ⟨"", .panic (.str "Too many request to Pinboards API. Come back later")⟩
          ∧ main f env c
            = ⟨"", .panic (.str "Too many request to Pinboards API. Come back later")⟩)
      ∧ (s ≠ 200 → s ≠ 429 →
          HttpGet f env (requestUrl f c)
              = ⟨"", .panic (.str ("Unexpected status code: %s. Expecting: %s" ++ toString s
                  ++ " 200"))⟩
            ∧ main f env c
              = ⟨"", .panic (.str ("Unexpected status code: %s. Expecting: %s" ++ toString s
                  ++ " 200"))⟩
            ∧ "Unexpected status code: %s. Expecting: %s" ++ toString s ++ " 200"
                ≠ "Too many request to Pinboards API. Come back later"
            ∧ Contains ("Unexpected status code: %s. Expecting: %s" ++ toString s ++ " 200")
                (toString s))
      ∧ (∀ (o body : String), HttpGet f env (requestUrl f c) = ⟨o, .ok body⟩ → s = 200) := by
  obtain ⟨k, hk⟩ := main_eq_bind f env c
  refine ⟨?_, ?_, ?_⟩
  · intro hs
    subst hs
    have h := HttpGet_429 f env _ b hget
    exact ⟨h, by rw [hk, h, bind_panic]⟩
  · intro h2 h4
    have h := HttpGet_status f env _ s b hget h4 h2
    have hm : Sprint [.str "Unexpected status code: %s. Expecting: %s", .int s, .int 200]
        = "Unexpected status code: %s. Expecting: %s" ++ toString s ++ " 200" := by
      apply String.ext
      simp [Sprint, doPrint, Arg.printArg, Arg.isString]
      rfl
    rw [hm] at h
    refine ⟨h, by rw [hk, h, bind_panic], ?_, ?_⟩
    · intro he
      have := congrArg String.data he
      simp at this
    · exact ⟨"Unexpected status code: %s. Expecting: %s", " 200", rfl⟩
  · intro o body h
    by_contra h2
    by_cases h4 : s = 429
    · subst h4
      rw [HttpGet_429 f env _ b hget] at h
      simp at h
    · rw [HttpGet_status f env _ s b hget h4 h2] at h
      simp at h




/-- C4 at the statuses 429 and 404 with the raw-JSON flag set. -/
theorem status_decides_witness :
    main { plainFlags with json_resp := true } (fixtureEnv 429 "{}") .recent
        = ⟨"", .panic (.str "Too many request to Pinboards API. Come back later")⟩
      ∧ main { plainFlags with json_resp := true } (fixtureEnv 404 "{}") .recent
        = ⟨"", .panic (.str "Unexpected status code: %s. Expecting: %s404 200")⟩ :=
  ⟨((status_decides { plainFlags with json_resp := true } (fixtureEnv 429 "{}") .recent 429
      (.ok "{}") rfl).1 rfl).2,
    ((status_decides { plainFlags with json_resp := true } (fixtureEnv 404 "{}") .recent 404
      (.ok "{}") rfl).2.1 (by decide) (by decide)).2.1⟩

/-- C5 at the body `not json` with status 200 and no raw-JSON flag: the decoder reports
`decodeError`; the delete and the add handler end in `panic(nil)`, which does not carry
the error, while the recent, get and suggest handlers panic with the error and the all
handler with its message. None writes to standard output. -/
theorem decode_error_dropped :
    (fixtureEnv 200 "not json").Get (requestUrl plainFlags .delete) = .ok ⟨200, .ok "not json"⟩
      ∧ (fixtureEnv 200 "not json").unmarshalShort "not json" = .error decodeError
      ∧ main plainFlags (fixtureEnv 200 "not json") .delete = ⟨"", .panic .nil⟩
      ∧ main plainFlags (fixtureEnv 200 "not json") .add = ⟨"", .panic .nil⟩
      ∧ main plainFlags (fixtureEnv 200 "not json") .recent
          = ⟨"", .panic (.error decodeError)⟩
      ∧ main plainFlags (fixtureEnv 200 "not json") .get = ⟨"", .panic (.error decodeError)⟩
      ∧ main plainFlags (fixtureEnv 200 "not json") .suggest
          = ⟨"", .panic (.error decodeError)⟩
      ∧ main plainFlags (fixtureEnv 200 "not json") .all = ⟨"", .panic (.str decodeError)⟩ := by
  refine ⟨rfl, rfl, ?_, ?_, ?_, ?_, ?_, ?_⟩ <;> decide

/-- C6: when the suggest response decodes to a sequence whose first two elements are `e0`
and `e1`, the suggest handler writes `Popular:`, a newline, each popular tag of `e0`
followed by comma and space, a newline, `Recommended:`, a newline, each recommended tag
of `e1` followed by comma and space, and a newline; the recommended tags of `e0` and the
popular tags of `e1` do not appear. -/
theorem suggest_output (f : Flags) (env : Env) (body : String) (e0 e1 : SuggestItem)
    (rest : List SuggestItem)
    (hget : env.Get (requestUrl f .suggest) = .ok ⟨200, .ok body⟩)
    (hj : f.json_resp = false)
    (hdec : env.unmarshalSuggest body = .ok (e0 :: e1 :: rest)) :
    main f env .suggest
      = ⟨"Popular:\n" ++ concat (e0.Popular.map fun t => t ++ ", ") ++ "\n"
          ++ "Recommended:\n" ++ concat (e1.Recommended.map fun t => t ++ ", ") ++ "\n",
        .ok ()⟩ :=
  SuggestUrl_two f env body e0 e1 rest hget hj hdec

/-- C6 at the fixture with popular tags `a`, `b` and recommended tag `c`. -/
theorem suggest_output_witness :
    main plainFlags (fixtureEnv 200 suggestFixture) .suggest
      = ⟨"Popular:\na, b, \nRecommended:\nc, \n", .ok ()⟩ :=
  suggest_output plainFlags (fixtureEnv 200 suggestFixture) suggestFixture ⟨["a", "b"], []⟩
    ⟨[], ["c"]⟩ [] rfl rfl rfl

/-- C10: for a decoded suggest response the handler returns exactly when the sequence has
at least two elements; with fewer it panics with index out of range (index and length
both equal to the number of elements) after it has written `Popular:` and a newline: for
the empty sequence exactly that, for a one-element sequence also the popular tags, a
newline, `Recommended:` and a newline. -/
theorem suggest_short (f : Flags) (env : Env) (body : String) (content : SuggestContent)
    (hget : env.Get (requestUrl f .suggest) = .ok ⟨200, .ok body⟩)
    (hj : f.json_resp = false)
    (hdec : env.unmarshalSuggest body = .ok content) :
    ((main f env .suggest).res = .ok () ↔ 2 ≤ content.length)
      ∧ (content.length < 2 →
          (main f env .suggest).res = .panic (.indexOutOfRange content.length content.length)
            ∧ ∃ more : String, (main f env .suggest).out = "Popular:\n" ++ more)
      ∧ (content = [] →
          main f env .suggest = ⟨"Popular:\n", .panic (.indexOutOfRange 0 0)⟩)
      ∧ (∀ e : SuggestItem, content = [e] →
          main f env .suggest
            = ⟨"Popular:\n" ++ concat (e.Popular.map fun t => t ++ ", ") ++ "\n"
                ++ "Recommended:\n", .panic (.indexOutOfRange 1 1)⟩) := by
  have hb := HttpGet_body f env _ body hget hj
  simp only [requestUrl, commandArgs] at hb
  have h0 : content = [] →
      main f env .suggest = ⟨"Popular:\n", .panic (.indexOutOfRange 0 0)⟩ := by
    intro hc
    subst hc
    simp only [main, SuggestUrl, hb, bind_out_res, bind_ok, hdec, forRange_tags, index]
    simp [Println, Print, Sprintln, doPrintln, Sprint, doPrint, Arg.printArg, Arg.isString,
      pure_eq, bind_ok, bind_panic, panic, Proc.bind]
  have h1 : ∀ e : SuggestItem, content = [e] →
      main f env .suggest
        = ⟨"Popular:\n" ++ concat (e.Popular.map fun t => t ++ ", ") ++ "\n"
            ++ "Recommended:\n", .panic (.indexOutOfRange 1 1)⟩ := by
    intro e hc
    subst hc
    simp only [main, SuggestUrl, hb, bind_out_res, bind_ok, hdec, forRange_tags, index]
    simp [Println, Print, Sprintln, doPrintln, Sprint, doPrint, Arg.printArg, Arg.isString,
      pure_eq, bind_ok, bind_panic, panic, Proc.bind]
    apply String.ext
    simp
  match content, hdec, h0, h1 with
  | [], _, h0, _ =>
    simp [h0 rfl]
    exact ⟨"", by simp⟩
  | [e], _, _, h1 =>
    simp [h1 e rfl]
    exact ⟨concat (e.Popular.map fun t => t ++ ", ") ++ "\n" ++ "Recommended:\n",
      by apply String.ext; simp⟩
  | e0 :: e1 :: rest, hdec, _, _ =>
    simp [SuggestUrl_two f env body e0 e1 rest hget hj hdec]

/-- C10 at the bodies decoded to the empty and to a one-element sequence. -/
theorem suggest_short_witness :
    main plainFlags (fixtureEnv 200 "[]") .suggest
        = ⟨"Popular:\n", .panic (.indexOutOfRange 0 0)⟩
      ∧ (main plainFlags (fixtureEnv 200 suggestOneFixture) .suggest).res
        = .panic (.indexOutOfRange 1 1) :=
  ⟨(suggest_short plainFlags (fixtureEnv 200 "[]") "[]" [] rfl rfl rfl).2.2.1 rfl,
    ((suggest_short plainFlags (fixtureEnv 200 suggestOneFixture) suggestOneFixture
      [⟨["a", "b"], []⟩]
      rfl rfl rfl).2.1 (by decide)).1⟩

/-- C7: when the response decodes to the posts `posts` (for recent and get the `posts`
field of a `PostsContent`, for all the `AllContent` itself), the recent, get and all
handlers write, in response order, one line per post and return: the href and a newline,
preceded when show-date is set by the time in stamp format, a comma and a space. The
output is the same expression of `posts` and show-date for the three handlers. When no
href holds a newline the output has as many newlines as there are posts. -/
theorem posts_output (f : Flags) (env : Env) (cmd : Command) (body : String)
    (posts : List Post)
    (hget : env.Get (requestUrl f cmd) = .ok ⟨200, .ok body⟩)
    (hj : f.json_resp = false)
    (hdec : ((cmd = .recent ∨ cmd = .get)
          ∧ ∃ (d : Time) (u : String), env.unmarshalPosts body = .ok ⟨d, u, posts⟩)
        ∨ (cmd = .all ∧ env.unmarshalAll body = .ok posts)) :
    main f env cmd
        = ⟨concat (posts.map fun p =>
            (if f.show_date then p.Time.FormatStamp ++ ", " else "") ++ p.Href ++ "\n"),
          .ok ()⟩
      ∧ ((∀ p ∈ posts, '\n' ∉ p.Href.data) →
          (main f env cmd).out.data.count '\n' = posts.length) := by
  have hb := HttpGet_body f env _ body hget hj
  have hmain : main f env cmd
        = ⟨concat (posts.map fun p =>
            (if f.show_date then p.Time.FormatStamp ++ ", " else "") ++ p.Href ++ "\n"),
          .ok ()⟩ := by
    rcases hdec with ⟨rfl | rfl, d, u, hd⟩ | ⟨rfl, hd⟩
    · simp only [requestUrl, commandArgs] at hb
      simp [main, RecentUrls, hb, bind_out_res, bind_ok, hd, printPosts_eq]
    · simp only [requestUrl, commandArgs] at hb
      simp [main, GetUrl, hb, bind_out_res, bind_ok, hd, printPosts_eq]
    · simp only [requestUrl, commandArgs] at hb
      simp [main, AllUrls, hb, bind_out_res, bind_ok, hd, printPosts_eq]
  refine ⟨hmain, fun h => ?_⟩
  rw [hmain]
  exact count_newline_lines f.show_date posts h

set_option maxRecDepth 10000 in
/-- C7 at the two posts of the fixture, for recent with show-date and for all without. -/
theorem posts_output_witness :
    main { plainFlags with show_date := true } (fixtureEnv 200 postsFixture) .recent
        = ⟨"Jan  2 15:04:05, https://a.example/\nNov 23 07:30:00, https://b.example/\n",
            .ok ()⟩
      ∧ main plainFlags (fixtureEnv 200 allFixture) .all
        = ⟨"https://a.example/\nhttps://b.example/\n", .ok ()⟩ :=
  ⟨(posts_output { plainFlags with show_date := true } (fixtureEnv 200 postsFixture) .recent
      postsFixture fixturePosts rfl rfl (Or.inl ⟨Or.inl rfl, _, _, rfl⟩)).1,
    (posts_output plainFlags (fixtureEnv 200 allFixture) .all allFixture fixturePosts rfl rfl
      (Or.inr ⟨rfl, rfl⟩)).1⟩

/-- C2, as amended: when the username and the token hold no `&`, the URL the recent, all,
add and get handlers request has no query parameter with the key of an optional flag
that is unset or empty (tag, count; start, results, tag, fromdt, todt; extended, tags,
replace, shared, toread; tag, dt, url), whatever the other flags. -/
theorem optional_params_absent (f : Flags)
    (hu : '&' ∉ f.username.data) (ht : '&' ∉ f.token.data) :
    (f.recentTags = "" → "tag" ∉ queryKeys (requestUrl f .recent))
      ∧ (f.recentCount = "" → "count" ∉ queryKeys (requestUrl f .recent))
      ∧ (f.allStart = "" → "start" ∉ queryKeys (requestUrl f .all))
      ∧ (f.allResults = "" → "results" ∉ queryKeys (requestUrl f .all))
      ∧ (f.allTags = "" → "tag" ∉ queryKeys (requestUrl f .all))
      ∧ (f.allFrom = "" → "fromdt" ∉ queryKeys (requestUrl f .all))
      ∧ (f.allTill = "" → "todt" ∉ queryKeys (requestUrl f .all))
      ∧ (f.addDescription = "" → "extended" ∉ queryKeys (requestUrl f .add))
      ∧ (f.addTags = "" → "tags" ∉ queryKeys (requestUrl f .add))
      ∧ (f.addNoReplace = false → "replace" ∉ queryKeys (requestUrl f .add))
      ∧ (f.addPrivate = false → "shared" ∉ queryKeys (requestUrl f .add))
      ∧ (f.addUnread = false → "toread" ∉ queryKeys (requestUrl f .add))
      ∧ (f.getTags = "" → "tag" ∉ queryKeys (requestUrl f .get))
      ∧ (f.getDate = "" → "dt" ∉ queryKeys (requestUrl f .get))
      ∧ (f.getUrl = "" → "url" ∉ queryKeys (requestUrl f .get)) := by
  have hrecent := fun key h => queryKeys_BuildUrl f "posts/recent" (RecentParams f) key
    (by decide) hu ht h
  have hall := fun key h => queryKeys_BuildUrl f "posts/all" (AllParams f) key
    (by decide) hu ht h
  have hadd := fun key h => queryKeys_BuildUrl f "posts/add" (AddParams f) key
    (by decide) hu ht h
  have hget := fun key h => queryKeys_BuildUrl f "posts/get" (GetParams f) key
    (by decide) hu ht h
  refine ⟨?_, ?_, ?_, ?_, ?_, ?_, ?_, ?_, ?_, ?_, ?_, ?_, ?_, ?_, ?_⟩
  · intro hflag hmem
    rcases hrecent _ hmem with h | h | h | ⟨k, hk, he⟩
    · exact absurd h (by decide)
    · exact absurd h (by decide)
    · exact absurd h (by decide)
    · rcases RecentParams_keys f k hk with ⟨h, rfl⟩ | ⟨h, rfl⟩
      all_goals first
        | exact absurd he (by decide)
        | exact h hflag
  · intro hflag hmem
    rcases hrecent _ hmem with h | h | h | ⟨k, hk, he⟩
    · exact absurd h (by decide)
    · exact absurd h (by decide)
    · exact absurd h (by decide)
    · rcases RecentParams_keys f k hk with ⟨h, rfl⟩ | ⟨h, rfl⟩
      all_goals first
        | exact absurd he (by decide)
        | exact h hflag
  · intro hflag hmem
    rcases hall _ hmem with h | h | h | ⟨k, hk, he⟩
    · exact absurd h (by decide)
    · exact absurd h (by decide)
    · exact absurd h (by decide)
    · rcases AllParams_keys f k hk with ⟨h, rfl⟩ | ⟨h, rfl⟩ | ⟨h, rfl⟩ | ⟨h, rfl⟩ | ⟨h, rfl⟩
      all_goals first
        | exact absurd he (by decide)
        | exact h hflag
  · intro hflag hmem
    rcases hall _ hmem with h | h | h | ⟨k, hk, he⟩
    · exact absurd h (by decide)
    · exact absurd h (by decide)
    · exact absurd h (by decide)
    · rcases AllParams_keys f k hk with ⟨h, rfl⟩ | ⟨h, rfl⟩ | ⟨h, rfl⟩ | ⟨h, rfl⟩ | ⟨h, rfl⟩
      all_goals first
        | exact absurd he (by decide)
        | exact h hflag
  · intro hflag hmem
    rcases hall _ hmem with h | h | h | ⟨k, hk, he⟩
    · exact absurd h (by decide)
    · exact absurd h (by decide)
    · exact absurd h (by decide)
    · rcases AllParams_keys f k hk with ⟨h, rfl⟩ | ⟨h, rfl⟩ | ⟨h, rfl⟩ | ⟨h, rfl⟩ | ⟨h, rfl⟩
      all_goals first
        | exact absurd he (by decide)
        | exact h hflag
  · intro hflag hmem
    rcases hall _ hmem with h | h | h | ⟨k, hk, he⟩
    · exact absurd h (by decide)
    · exact absurd h (by decide)
    · exact absurd h (by decide)
    · rcases AllParams_keys f k hk with ⟨h, rfl⟩ | ⟨h, rfl⟩ | ⟨h, rfl⟩ | ⟨h, rfl⟩ | ⟨h, rfl⟩
      all_goals first
        | exact absurd he (by decide)
        | exact h hflag
  · intro hflag hmem
    rcases hall _ hmem with h | h | h | ⟨k, hk, he⟩
    · exact absurd h (by decide)
    · exact absurd h (by decide)
    · exact absurd h (by decide)
    · rcases AllParams_keys f k hk with ⟨h, rfl⟩ | ⟨h, rfl⟩ | ⟨h, rfl⟩ | ⟨h, rfl⟩ | ⟨h, rfl⟩
      all_goals first
        | exact absurd he (by decide)
        | exact h hflag
  · intro hflag hmem
    rcases hadd _ hmem with h | h | h | ⟨k, hk, he⟩
    · exact absurd h (by decide)
    · exact absurd h (by decide)
    · exact absurd h (by decide)
    · rcases AddParams_keys f k hk with rfl | rfl | ⟨h, rfl⟩ | ⟨h, rfl⟩ | ⟨h, rfl⟩ | ⟨h, rfl⟩ | ⟨h, rfl⟩
      all_goals first
        | exact absurd he (by decide)
        | exact h hflag
  · intro hflag hmem
    rcases hadd _ hmem with h | h | h | ⟨k, hk, he⟩
    · exact absurd h (by decide)
    · exact absurd h (by decide)
    · exact absurd h (by decide)
    · rcases AddParams_keys f k hk with rfl | rfl | ⟨h, rfl⟩ | ⟨h, rfl⟩ | ⟨h, rfl⟩ | ⟨h, rfl⟩ | ⟨h, rfl⟩
      all_goals first
        | exact absurd he (by decide)
        | exact h hflag
  · intro hflag hmem
    rcases hadd _ hmem with h | h | h | ⟨k, hk, he⟩
    · exact absurd h (by decide)
    · exact absurd h (by decide)
    · exact absurd h (by decide)
    · rcases AddParams_keys f k hk with rfl | rfl | ⟨h, rfl⟩ | ⟨h, rfl⟩ | ⟨h, rfl⟩ | ⟨h, rfl⟩ | ⟨h, rfl⟩
      all_goals first
        | exact absurd he (by decide)
        | (rw [hflag] at h; exact absurd h (by decide))
  · intro hflag hmem
    rcases hadd _ hmem with h | h | h | ⟨k, hk, he⟩
    · exact absurd h (by decide)
    · exact absurd h (by decide)
    · exact absurd h (by decide)
    · rcases AddParams_keys f k hk with rfl | rfl | ⟨h, rfl⟩ | ⟨h, rfl⟩ | ⟨h, rfl⟩ | ⟨h, rfl⟩ | ⟨h, rfl⟩
      all_goals first
        | exact absurd he (by decide)
        | (rw [hflag] at h; exact absurd h (by decide))
  · intro hflag hmem
    rcases hadd _ hmem with h | h | h | ⟨k, hk, he⟩
    · exact absurd h (by decide)
    · exact absurd h (by decide)
    · exact absurd h (by decide)
    · rcases AddParams_keys f k hk with rfl | rfl | ⟨h, rfl⟩ | ⟨h, rfl⟩ | ⟨h, rfl⟩ | ⟨h, rfl⟩ | ⟨h, rfl⟩
      all_goals first
        | exact absurd he (by decide)
        | (rw [hflag] at h; exact absurd h (by decide))
  · intro hflag hmem
    rcases hget _ hmem with h | h | h | ⟨k, hk, he⟩
    · exact absurd h (by decide)
    · exact absurd h (by decide)
    · exact absurd h (by decide)
    · rcases GetParams_keys f k hk with ⟨h, rfl⟩ | ⟨h, rfl⟩ | ⟨h, rfl⟩
      all_goals first
        | exact absurd he (by decide)
        | exact h hflag
  · intro hflag hmem
    rcases hget _ hmem with h | h | h | ⟨k, hk, he⟩
    · exact absurd h (by decide)
    · exact absurd h (by decide)
    · exact absurd h (by decide)
    · rcases GetParams_keys f k hk with ⟨h, rfl⟩ | ⟨h, rfl⟩ | ⟨h, rfl⟩
      all_goals first
        | exact absurd he (by decide)
        | exact h hflag
  · intro hflag hmem
    rcases hget _ hmem with h | h | h | ⟨k, hk, he⟩
    · exact absurd h (by decide)
    · exact absurd h (by decide)
    · exact absurd h (by decide)
    · rcases GetParams_keys f k hk with ⟨h, rfl⟩ | ⟨h, rfl⟩ | ⟨h, rfl⟩
      all_goals first
        | exact absurd he (by decide)
        | exact h hflag

/-- C2, as amended, at a command line without optional flags. -/
theorem optional_params_absent_witness :
    "tag" ∉ queryKeys (requestUrl plainFlags .recent)
      ∧ "extended" ∉ queryKeys (requestUrl plainFlags .add) :=
  ⟨(optional_params_absent plainFlags (by decide) (by decide)).1 rfl,
    (optional_params_absent plainFlags (by decide) (by decide)).2.2.2.2.2.2.2.1 rfl⟩

/-- C2 as stated fails: with the username `user&tag=x` and no tag flag, the URL of the
recent handler has a query parameter with the key `tag`. -/
theorem optional_param_injected :
    ({ plainFlags with username := "user&tag=x" } : Flags).recentTags = ""
      ∧ requestUrl { plainFlags with username := "user&tag=x" } .recent
          = "https://api.pinboard.in/v1/posts/recent?auth_token=user&tag=x:0123&format=json&"
      ∧ "tag" ∈ queryKeys (requestUrl { plainFlags with username := "user&tag=x" } .recent) := by
  refine ⟨rfl, ?_, ?_⟩ <;> decide

set_option maxHeartbeats 4000000 in
/-- C8: the `UrlArgs` of the add handler has the resource path `posts/add` and the
encoding of its parameters as query; the parameters have one entry per key and are
exactly: `url` with the url flag and `description` with the title flag, `extended` with
the description flag iff that is not empty, `tags` with the tags flag iff that is not
empty, `replace` with `no` iff no-replace is set, `shared` with `no` iff private is set,
`toread` with `yes` iff unread is set. -/
theorem add_params (f : Flags) :
    (AddArgs f).ResourceUri = "posts/add"
      ∧ (AddArgs f).Params = (AddParams f).Encode
      ∧ ((AddParams f).map Prod.fst).Nodup
      ∧ ∀ (k : String) (vs : List String), (k, vs) ∈ AddParams f ↔
          (k = "url" ∧ vs = [f.addUrl]) ∨ (k = "description" ∧ vs = [f.addTitle])
            ∨ (k = "extended" ∧ f.addDescription ≠ "" ∧ vs = [f.addDescription])
            ∨ (k = "tags" ∧ f.addTags ≠ "" ∧ vs = [f.addTags])
            ∨ (k = "replace" ∧ f.addNoReplace = true ∧ vs = ["no"])
            ∨ (k = "shared" ∧ f.addPrivate = true ∧ vs = ["no"])
            ∨ (k = "toread" ∧ f.addUnread = true ∧ vs = ["yes"]) := by
  refine ⟨by simp [AddArgs], by simp [AddArgs], ?_, ?_⟩
  · unfold AddParams
    by_cases h1 : f.addDescription = "" <;> by_cases h2 : f.addTags = "" <;>
      cases h3 : f.addNoReplace <;> cases h4 : f.addPrivate <;> cases h5 : f.addUnread <;>
      simp [h1, h2, Values.Set]
  · intro k vs
    unfold AddParams
    by_cases h1 : f.addDescription = "" <;> by_cases h2 : f.addTags = "" <;>
      cases h3 : f.addNoReplace <;> cases h4 : f.addPrivate <;> cases h5 : f.addUnread <;>
      simp [h1, h2, Values.Set] <;> tauto

end Pinboardin

